import Mathlib

/-!
Verification of the SPH / N-body core of the GANDALF code.

Shallow embedding over ℚ of the routines in `src/Ghosts.cpp`,
`src/GradhSph.cpp`, `src/NbodyLeapfrogDKD.cpp` and `src/MpiControl.cpp`.
Transcendental library calls of the C++ source (`pow` with fractional
exponent, `sqrt`, the kernel table `w0_s2`/`w1`/... and the equation of
state `Pressure`) are passed in as abstract function parameters, so every
definition stays executable; all other arithmetic is translated literally.
-/

/-- A `ndim`-vector of coordinates (the C++ `FLOAT r[ndim]`). -/
def Vec (d : ℕ) : Type := Fin d → ℚ

/-- Boundary / ghost kind tag stored in `SphParticle::itype`
(values `x_lhs_periodic`, ..., from `Precision.h`/`Constants.h`). -/
inductive GhostKind where
  | real
  | x_lhs_periodic | x_rhs_periodic | x_lhs_mirror | x_rhs_mirror
  | y_lhs_periodic | y_rhs_periodic | y_lhs_mirror | y_rhs_mirror
  | z_lhs_periodic | z_rhs_periodic | z_lhs_mirror | z_rhs_mirror
  deriving DecidableEq

/-- The SPH particle record (`SphParticle<ndim>`), with the fields the
verified routines read or write. -/
structure SphParticle (d : ℕ) where
  r : Vec d
  v : Vec d
  a : Vec d
  agrav : Vec d
  m : ℚ
  h : ℚ
  invh : ℚ
  hfactor : ℚ
  rho : ℚ
  invrho : ℚ
  invomega : ℚ
  zeta : ℚ
  chi : ℚ
  u : ℚ
  dudt : ℚ
  div_v : ℚ
  gpot : ℚ
  sound : ℚ
  pfactor : ℚ
  alpha : ℚ
  level : ℤ
  levelneib : ℤ
  sinkid : ℤ
  potmin : Bool
  active : Bool
  itype : GhostKind
  iorig : ℕ

/-- Simulation bounding box (`DomainBox<3>`): min/max coordinate and the
derived size vector. -/
structure DomainBox where
  boxmin : Vec 3
  boxmax : Vec 3
  boxsize : Vec 3

/-- The particle-array slice of the `Sph` object that the ghost routines
manipulate (`sph->sphdata` with its counters). -/
structure SphState where
  sphdata : ℕ → SphParticle 3
  Nsph : ℕ
  Nghost : ℕ
  NPeriodicGhost : ℕ
  Nghostmax : ℕ
  Nsphmax : ℕ
  Ntot : ℕ

/-- Result of a ghost-array mutation: either the exception handler was
invoked (`ExceptionHandler::getIstance().raise(...)`, which never returns),
or the updated state. -/
inductive GhostResult where
  | raise
  | ok (st : SphState)

/-- `PeriodicGhosts<3>::CreateGhostParticle` (Ghosts.cpp:240-272).
Copies particle `i` into slot `Nsph + Nghost`, overwriting the `k`-th
position/velocity component with `rk`/`vk`, after checking
`Nghost > Nghostmax` (raising "Not enough memory for new ghost"). -/
def createGhostParticle (st : SphState) (i : ℕ) (k : Fin 3) (rk vk : ℚ)
    (ghosttype : GhostKind) : GhostResult :=
  if st.Nghostmax < st.Nghost then .raise
  else
    let p := st.sphdata i
    let p' : SphParticle 3 :=
      { p with
        r := Function.update p.r k rk
        v := Function.update p.v k vk
        active := false
        itype := ghosttype
        iorig := i }
    .ok { st with
          sphdata := Function.update st.sphdata (st.Nsph + st.Nghost) p'
          Nghost := st.Nghost + 1 }

/-- `PeriodicGhosts<3>::CopySphDataToGhosts` (Ghosts.cpp:280-322).
For each periodic ghost `j`, copy the whole record from its origin
particle `iorig` (keeping `iorig`, `itype`, `active := false`) and then
shift the position according to the stored kind.  The source only handles
the four x/y periodic kinds in the shift dispatch. -/
def copySphDataToGhosts (simbox : DomainBox) (Nsph NPeriodicGhost : ℕ)
    (sphdata : ℕ → SphParticle 3) : ℕ → SphParticle 3 :=
  (List.range NPeriodicGhost).foldl
    (fun data j =>
      let i := Nsph + j
      let iorig := (data i).iorig
      let itype := (data i).itype
      let p0 := data iorig
      let p1 : SphParticle 3 :=
        { p0 with iorig := iorig, itype := itype, active := false }
      let r' : Vec 3 :=
        if itype = .x_lhs_periodic then
          Function.update p1.r 0 (p1.r 0 + simbox.boxsize 0)
        else if itype = .x_rhs_periodic then
          Function.update p1.r 0 (p1.r 0 - simbox.boxsize 0)
        else if itype = .y_lhs_periodic then
          Function.update p1.r 1 (p1.r 1 + simbox.boxsize 1)
        else if itype = .y_rhs_periodic then
          Function.update p1.r 1 (p1.r 1 - simbox.boxsize 1)
        else p1.r
      Function.update data i { p1 with r := r' })
    sphdata

/-- `MPIGhosts<3>::SearchGhostParticles` (Ghosts.cpp:373-406): after the
exchange produced `Nmpighosts` particles in `ghost_array`, store them at
`Nsph + NPeriodicGhost + j` with `active := false`, guarded by the two
capacity checks of the source. -/
def mpiSearchGhostParticles (st : SphState) (Nmpighosts : ℕ)
    (ghost_array : ℕ → SphParticle 3) : GhostResult :=
  if st.Nsphmax < st.Ntot + Nmpighosts then .raise
  else
    let start_index := st.Nsph + st.NPeriodicGhost
    let data' :=
      (List.range Nmpighosts).foldl
        (fun d j => Function.update d (start_index + j)
          { ghost_array j with active := false })
        st.sphdata
    let st' : SphState :=
      { st with
        sphdata := data'
        Nghost := st.Nghost + Nmpighosts
        Ntot := st.Ntot + Nmpighosts }
    if st'.Nghostmax < st'.Nghost ∨ st'.Nsphmax < st'.Ntot then .raise
    else .ok st'

/-- `MPIGhosts<3>::CopySphDataToGhosts` (Ghosts.cpp:409-423): refresh the
MPI ghost slots from the freshly received array, again forcing
`active := false`. -/
def mpiCopySphDataToGhosts (st : SphState) (Nmpighosts : ℕ)
    (ghost_array : ℕ → SphParticle 3) : SphState :=
  let start_index := st.Nsph + st.NPeriodicGhost
  { st with
    sphdata :=
      (List.range Nmpighosts).foldl
        (fun d j => Function.update d (start_index + j)
          { ghost_array j with active := false })
        st.sphdata }

/-- Observer: the `itype` stored at `idx` when the mutation succeeded. -/
def storedKind (res : GhostResult) (idx : ℕ) : Option GhostKind :=
  match res with
  | .raise => none
  | .ok st => some ((st.sphdata idx).itype)

/-- Observer: the `active` flag stored at `idx` when the mutation
succeeded. -/
def storedActive (res : GhostResult) (idx : ℕ) : Option Bool :=
  match res with
  | .raise => none
  | .ok st => some ((st.sphdata idx).active)

/-- Star particle record (`NbodyParticle<ndim>`): kinematics plus the
begin-of-step checkpoint `r0, v0, a0` and the integer times. -/
structure StarParticle (d : ℕ) where
  r : Vec d
  v : Vec d
  a : Vec d
  r0 : Vec d
  v0 : Vec d
  a0 : Vec d
  m : ℚ
  h : ℚ
  gpot : ℚ
  nlast : ℤ
  nstep : ℤ
  active : Bool

/-- `NbodyLeapfrogDKD::AdvanceParticles` body for one star
(NbodyLeapfrogDKD.cpp:228-242): `dn = n - nlast`, `dt = timestep*dn`,
`r = r0 + v0*dt`, `v = v0 + a0*dt`, active at the half step. -/
def advanceParticlesDKD {d : ℕ} (n : ℤ) (timestep : ℚ)
    (star : StarParticle d) : StarParticle d :=
  let dn : ℤ := n - star.nlast
  let dt : ℚ := timestep * (dn : ℚ)
  { star with
    r := fun k => star.r0 k + star.v0 k * dt
    v := fun k => star.v0 k + star.a0 k * dt
    active := decide (dn = star.nstep / 2) }

/-- `GradhSph::ComputePostHydroQuantities` (GradhSph.cpp:590-598) with the
equation of state `Pressure` abstracted as a function of `(rho, u)`:
`div_v *= invrho; dudt -= Pressure(parti)*div_v*invrho*invomega`. -/
def computePostHydroQuantities {d : ℕ} (pressure : ℚ → ℚ → ℚ)
    (parti : SphParticle d) : SphParticle d :=
  let p1 := { parti with div_v := parti.div_v * parti.invrho }
  { p1 with dudt := p1.dudt - pressure p1.rho p1.u * p1.div_v * p1.invrho * p1.invomega }

/-- Parameters of `GradhSph::ComputeH` (GradhSph.cpp:85-240).  The kernel
evaluation `w0_s2` and the fractional power `x ↦ pow(x, 1/ndim)`
(`invndim = 1/ndim`) are abstract function parameters; `neib` zips the
`m[]` and `drsqd[]` arrays of the candidate neighbour list, `mPart` is
`parti.m`, `hlo0` is the initial lower bound (`hmin_sink` inside a sink,
else 0), `small` is the `small_number` constant. -/
structure HParams where
  ndim : ℕ
  mPart : ℚ
  h_fac : ℚ
  h_converge : ℚ
  hmax : ℚ
  small : ℚ
  hlo0 : ℚ
  neib : List (ℚ × ℚ)
  w0s2 : ℚ → ℚ
  powInvNdim : ℚ → ℚ

/-- Mutable state of the h-rho iteration loop: `parti.h`, the two bracket
bounds, the (conditionally updated) `parti.invrho`, and the iteration
counter. -/
structure HIterState where
  h : ℚ
  hlo : ℚ
  hhi : ℚ
  invrho : ℚ
  iteration : ℕ
  deriving DecidableEq

/-- `iteration_max` of the source (local constant 30). -/
def iterationMax : ℕ := 30

/-- The density sum of one loop pass:
`rho = (Σ_j m[j]*w0_s2(drsqd[j]*invh²)) * invh^ndim`. -/
def rhoAt (P : HParams) (h : ℚ) : ℚ :=
  (P.neib.foldl (fun acc md => acc + md.1 * P.w0s2 (md.2 * (1/h)^2)) 0) * (1/h) ^ P.ndim

/-- `if (rho > 0) invrho = 1/rho` — otherwise the previous value of
`parti.invrho` survives. -/
def invrhoNext (P : HParams) (h invrho : ℚ) : ℚ :=
  if 0 < rhoAt P h then 1 / rhoAt P h else invrho

/-- The fixed-point target `h_fac*pow(m*invrho, invndim)`. -/
def hIdeal (P : HParams) (invrho : ℚ) : ℚ :=
  P.h_fac * P.powInvNdim (P.mPart * invrho)

/-- The `break` test of the loop:
`rho > 0 && h > h_lower_bound && |h - h_fac*pow(m*invrho, invndim)| < h_converge`. -/
def convergedAt (P : HParams) (s : HIterState) : Prop :=
  0 < rhoAt P s.h ∧ s.hlo < s.h ∧
    |s.h - hIdeal P (invrhoNext P s.h s.invrho)| < P.h_converge

instance (P : HParams) (s : HIterState) : Decidable (convergedAt P s) := by
  unfold convergedAt; infer_instance

/-- The bisection classification
`rho < small_number || rho*pow(h,ndim) > pow(h_fac,ndim)*m`:
when it holds the source makes `h` the new *upper* bound. -/
def bisectUpper (P : HParams) (s : HIterState) : Prop :=
  rhoAt P s.h < P.small ∨
    P.h_fac ^ P.ndim * P.mPart < rhoAt P s.h * s.h ^ P.ndim

instance (P : HParams) (s : HIterState) : Decidable (bisectUpper P s) := by
  unfold bisectUpper; infer_instance

/-- The bracket `(h_lower_bound, h_upper_bound)` after one unconverged
pass: unchanged during the fixed-point sweep and the first midpoint step
(`iteration ≤ iteration_max`), updated by the classification during
bisection. -/
def hBoundsNext (P : HParams) (s : HIterState) : ℚ × ℚ :=
  if s.iteration + 1 ≤ iterationMax then (s.hlo, s.hhi)
  else if bisectUpper P s then (s.hlo, s.h) else (s.h, s.hhi)

/-- The trial `parti.h` after one unconverged pass (the three live branches
of the update chain; at `5*iteration_max` no update happens because the
exception is raised instead). -/
def hNextAt (P : HParams) (s : HIterState) : ℚ :=
  if s.iteration + 1 < iterationMax then
    hIdeal P (invrhoNext P s.h s.invrho)
  else ((hBoundsNext P s).1 + (hBoundsNext P s).2) / 2

/-- Exit status of `ComputeH`: a normal return (`1` when the final h fits
the neighbour list, `-1` otherwise), the "neighbour list insufficient"
`return 0`, or the fatal "Problem with convergence of h-rho iteration". -/
inductive HExit where
  | success (hfinal : ℚ) (code : ℤ)
  | insufficient
  | fatal
  deriving DecidableEq

/-- The post-loop normalisation (GradhSph.cpp:188-239) as far as the return
protocol is concerned: `h = max(h_fac*pow(m*invrho, invndim), h_lower_bound)`
and `return (h <= hmax) ? 1 : -1`. -/
def hPost (P : HParams) (hlo invrho : ℚ) : HExit :=
  let hfinal := max (hIdeal P invrho) hlo
  .success hfinal (if hfinal ≤ P.hmax then 1 else -1)

/-- Outcome of one pass of the do-while body: exit the routine or continue
with a new state. -/
inductive HStep where
  | exit (e : HExit)
  | next (s : HIterState)
  deriving DecidableEq

/-- One pass of the `do { ... } while(...)` body of `ComputeH`
(GradhSph.cpp:114-184): increment `iteration`, recompute `rho`/`invrho`,
`break` on convergence, update `h` by the fixed-point / midpoint /
bisection chain or raise at `5*iteration_max`, `return 0` when the new `h`
exceeds `hmax`, and re-enter the loop only while
`h > h_lower_bound && h < h_upper_bound`. -/
def hStepFn (P : HParams) (s : HIterState) : HStep :=
  let it := s.iteration + 1
  let invrho' := invrhoNext P s.h s.invrho
  if convergedAt P s then .exit (hPost P s.hlo invrho')
  else if 5 * iterationMax ≤ it then .exit .fatal
  else
    let h' := hNextAt P s
    let hlo' := (hBoundsNext P s).1
    let hhi' := (hBoundsNext P s).2
    if P.hmax < h' then .exit .insufficient
    else if hlo' < h' ∧ h' < hhi' then .next ⟨h', hlo', hhi', invrho', it⟩
    else .exit (hPost P hlo' invrho')

/-- The iteration loop, driven by a fuel argument.  Started with fuel
`5*iterationMax` at `iteration = 0` (as `computeH` does) the fuel can
never run out, because the pass at `iteration + 1 = 5*iterationMax`
already exits through the fatal branch. -/
def computeHLoop (P : HParams) : ℕ → HIterState → HExit
  | 0, _ => .fatal
  | fuel + 1, s =>
    match hStepFn P s with
    | .exit e => e
    | .next s' => computeHLoop P fuel s'

/-- `GradhSph::ComputeH`: run the loop from the entry state
(`h_lower_bound = hlo0`, `h_upper_bound = hmax`, `iteration = 0`). -/
def computeH (P : HParams) (h0 invrho0 : ℚ) : HExit :=
  computeHLoop P (5 * iterationMax) ⟨h0, P.hlo0, P.hmax, invrho0, 0⟩

/-- States reachable from `s` by re-entering the loop. -/
inductive ReachH (P : HParams) : HIterState → HIterState → Prop where
  | refl (s : HIterState) : ReachH P s s
  | step {s t u : HIterState} :
      ReachH P s t → hStepFn P t = .next u → ReachH P s u

/-- `aviscenum`: artificial viscosity selector. -/
inductive AViscKind where
  | noav | mon97 | mon97td
  deriving DecidableEq

/-- `acondenum`: artificial conductivity selector. -/
inductive ACondKind where
  | noac | wadsley2008 | price2008
  deriving DecidableEq

/-- `DotProduct(a, b, ndim)`. -/
def dotQ {d : ℕ} (x y : Vec d) : ℚ := ∑ k, x k * y k

/-- Member data of `GradhSph` used by the pair-force routines; the kernel
functions `w1`, `wgrav`, `wpot`, the EOS `Pressure` (as a function of
`(rho, u)`) and `sqrt` are abstract, `small` is the `small_number`
constant added under the square root of the hydro-grav separation. -/
structure PairParams where
  avisc : AViscKind
  acond : ACondKind
  alpha_visc : ℚ
  beta_visc : ℚ
  small : ℚ
  w1 : ℚ → ℚ
  wgrav : ℚ → ℚ
  wpot : ℚ → ℚ
  pressure : ℚ → ℚ → ℚ
  sqrtFn : ℚ → ℚ

/-- One neighbour pass of `GradhSph::ComputeSphHydroForces`
(GradhSph.cpp:281-351): kernel gradients, velocity-divergence deposits,
grad-h pressure force, Monaghan (1997) artificial viscosity with fixed or
time-dependent alpha, artificial conductivity, and the antisymmetric
acceleration deposits.  Returns the updated `(parti, neibpart[j])`. -/
def computeSphHydroForcesPair {d : ℕ} (P : PairParams) (drmag : ℚ)
    (draux : Vec d) (parti neibj : SphParticle d) :
    SphParticle d × SphParticle d :=
  let wkerni := parti.hfactor * P.w1 (drmag * parti.invh)
  let wkernj := neibj.hfactor * P.w1 (drmag * neibj.invh)
  let dv : Vec d := fun k => neibj.v k - parti.v k
  let dvdr := dotQ dv draux
  let div_vi := parti.div_v - neibj.m * dvdr * wkerni
  let div_vj := neibj.div_v - parti.m * dvdr * wkernj
  let paux0 := parti.pfactor * wkerni + neibj.pfactor * wkernj
  let winvrho := (1/4) * (wkerni + wkernj) * (parti.invrho + neibj.invrho)
  -- (paux, parti.dudt, neibpart[j].dudt) after the dissipation block
  let diss : ℚ × ℚ × ℚ :=
    if dvdr < 0 then
      let av : ℚ × ℚ × ℚ :=
        match P.avisc with
        | .mon97 =>
          let vsignal := parti.sound + neibj.sound -
            P.beta_visc * P.alpha_visc * dvdr
          let uaux := (1/2) * P.alpha_visc * vsignal * dvdr * dvdr * winvrho
          (paux0 - P.alpha_visc * vsignal * dvdr * winvrho,
           parti.dudt - neibj.m * uaux, neibj.dudt - parti.m * uaux)
        | .mon97td =>
          let alpha_mean := (1/2) * (parti.alpha + neibj.alpha)
          let vsignal := parti.sound + neibj.sound -
            P.beta_visc * alpha_mean * dvdr
          let uaux := (1/2) * alpha_mean * vsignal * dvdr * dvdr * winvrho
          (paux0 - alpha_mean * vsignal * dvdr * winvrho,
           parti.dudt - neibj.m * uaux, neibj.dudt - parti.m * uaux)
        | .noav => (paux0, parti.dudt, neibj.dudt)
      match P.acond with
      | .wadsley2008 =>
        let uaux := (1/2) * dvdr * (neibj.u - parti.u) *
          (parti.invrho * wkerni + neibj.invrho * wkernj)
        (av.1, av.2.1 + neibj.m * uaux, av.2.2 - parti.m * uaux)
      | .price2008 =>
        let vsignal := P.sqrtFn (|P.pressure parti.rho parti.u -
          P.pressure neibj.rho neibj.u| * (1/2) *
          (parti.invrho + neibj.invrho))
        (av.1,
         av.2.1 + (1/2) * neibj.m * vsignal * (parti.u - neibj.u) * winvrho,
         av.2.2 - (1/2) * parti.m * vsignal * (parti.u - neibj.u) * winvrho)
      | .noac => av
    else (paux0, parti.dudt, neibj.dudt)
  let paux := diss.1
  ({ parti with
     div_v := div_vi
     dudt := diss.2.1
     a := fun k => parti.a k + neibj.m * draux k * paux
     levelneib := max parti.levelneib neibj.level },
   { neibj with
     div_v := div_vj
     dudt := diss.2.2
     a := fun k => neibj.a k - parti.m * draux k * paux
     levelneib := max neibj.levelneib parti.level })

/-- One neighbour pass of `GradhSph::ComputeSphHydroGravForces`
(GradhSph.cpp:398-481): separation recomputed from the positions with the
`small_number` regulariser, then pressure force and dissipation — here the
mon97 signal speed is `c_i + c_j - beta_visc*dvdr`, without the
`alpha_visc` factor of the pure-hydro routine, and there is no `mon97td`
branch — followed by the softened-gravity deposits. -/
def computeSphHydroGravForcesPair {d : ℕ} (P : PairParams)
    (parti neibj : SphParticle d) : SphParticle d × SphParticle d :=
  let dr0 : Vec d := fun k => neibj.r k - parti.r k
  let dv : Vec d := fun k => neibj.v k - parti.v k
  let drmag := P.sqrtFn (dotQ dr0 dr0 + P.small)
  let invdrmag := 1 / drmag
  let dr : Vec d := fun k => dr0 k * invdrmag
  let dvdr := dotQ dv dr
  let wkerni := parti.hfactor * P.w1 (drmag * parti.invh)
  let wkernj := neibj.hfactor * P.w1 (drmag * neibj.invh)
  let paux0 := parti.pfactor * wkerni + neibj.pfactor * wkernj
  let winvrho := (1/4) * (wkerni + wkernj) * (parti.invrho + neibj.invrho)
  let diss : ℚ × ℚ × ℚ :=
    if dvdr < 0 then
      let av : ℚ × ℚ × ℚ :=
        if P.avisc = .mon97 then
          let vsignal := parti.sound + neibj.sound - P.beta_visc * dvdr
          let uaux := (1/2) * P.alpha_visc * vsignal * dvdr * dvdr * winvrho
          (paux0 - P.alpha_visc * vsignal * dvdr * winvrho,
           parti.dudt - neibj.m * uaux, neibj.dudt - parti.m * uaux)
        else (paux0, parti.dudt, neibj.dudt)
      match P.acond with
      | .wadsley2008 =>
        let uaux := (1/2) * dvdr * (neibj.u - parti.u) *
          (parti.invrho * wkerni + neibj.invrho * wkernj)
        (av.1, av.2.1 + neibj.m * uaux, av.2.2 - parti.m * uaux)
      | .price2008 =>
        let vsignal := P.sqrtFn (|P.pressure parti.rho parti.u -
          P.pressure neibj.rho neibj.u| * (1/2) *
          (parti.invrho + neibj.invrho))
        (av.1,
         av.2.1 + (1/2) * neibj.m * vsignal * (parti.u - neibj.u) * winvrho,
         av.2.2 - (1/2) * parti.m * vsignal * (parti.u - neibj.u) * winvrho)
      | .noac => av
    else (paux0, parti.dudt, neibj.dudt)
  let paux := diss.1
  let gpaux := (1/2) * (parti.invh * parti.invh * P.wgrav (drmag * parti.invh) +
    (parti.zeta + parti.chi) * parti.hfactor * P.w1 (drmag * parti.invh) +
    neibj.invh * neibj.invh * P.wgrav (drmag * neibj.invh) +
    (neibj.zeta + neibj.chi) * neibj.hfactor * P.w1 (drmag * neibj.invh))
  let gaux := (1/2) * (parti.invh * P.wpot (drmag * parti.invh) +
    neibj.invh * P.wpot (drmag * neibj.invh))
  ({ parti with
     dudt := diss.2.1
     a := fun k => parti.a k + neibj.m * dr k * paux
     agrav := fun k => parti.agrav k + neibj.m * dr k * gpaux
     gpot := parti.gpot + neibj.m * gaux
     div_v := parti.div_v - neibj.m * dvdr * wkerni
     levelneib := max parti.levelneib neibj.level },
   { neibj with
     dudt := diss.2.2
     a := fun k => neibj.a k - parti.m * dr k * paux
     agrav := fun k => neibj.agrav k - parti.m * dr k * gpaux
     gpot := neibj.gpot + parti.m * gaux
     div_v := neibj.div_v - parti.m * dvdr * wkernj
     levelneib := max neibj.levelneib parti.level })

/-- `Nturns = Nmpi - 1` (MpiControl.cpp:193). -/
def NturnsLeague (Nmpi : ℕ) : ℕ := Nmpi - 1

/-- The `pairs` table of one turn (MpiControl.cpp:215-219):
`pairs_turn[0] = Nturns` and `pairs_turn[i] = (i + iturn) % (Nmpi-1)` for
`i ≥ 1`. -/
def pairsTurn (Nmpi iturn i : ℕ) : ℕ :=
  if i = 0 then Nmpi - 1 else (i + iturn) % (Nmpi - 1)

/-- One `istep` pass of the calendar fill loop (MpiControl.cpp:221-227):
`calendar[first_team][iturn] = second_team;`
`calendar[second_team][iturn] = first_team;` with
`first_team = pairs_turn[istep]`, `second_team = pairs_turn[size-istep]`
where `size = Nmpi - 1`. -/
def leagueWrite (Nmpi iturn : ℕ) (c : ℕ → ℕ) (istep : ℕ) : ℕ → ℕ :=
  let first_team := pairsTurn Nmpi iturn istep
  let second_team := pairsTurn Nmpi iturn (Nmpi - 1 - istep)
  Function.update (Function.update c first_team second_team)
    second_team first_team

/-- The column of the calendar for one turn: `iteam ↦ calendar[iteam][iturn]`
after the fill loop `for (istep = 0; istep < Nmpi/2; istep++)` of
`MpiControl::CreateLeagueCalendar`. -/
def leagueCalendar (Nmpi iturn : ℕ) : ℕ → ℕ :=
  (List.range (Nmpi / 2)).foldl (leagueWrite Nmpi iturn) (fun _ => 0)

/-- Index of a team inside the `pairs_turn` permutation: team `Nmpi-1`
sits at index 0, team `iturn` at index `Nmpi-1`, team `t` at index
`(t + (Nmpi-1) - iturn) % (Nmpi-1)` otherwise. -/
def leaguePos (Nmpi iturn t : ℕ) : ℕ :=
  if t = Nmpi - 1 then 0
  else
    let r := (t + (Nmpi - 1) - iturn) % (Nmpi - 1)
    if r = 0 then Nmpi - 1 else r

/-- A fluid particle with all numeric fields zero (and, deliberately,
`active := true`, so that any forced clearing of the flag is visible). -/
def baseParticle : SphParticle 3 :=
  { r := fun _ => 0, v := fun _ => 0, a := fun _ => 0, agrav := fun _ => 0
    m := 0, h := 0, invh := 0, hfactor := 0, rho := 0, invrho := 0
    invomega := 0, zeta := 0, chi := 0, u := 0, dudt := 0, div_v := 0
    gpot := 0, sound := 0, pfactor := 0, alpha := 0
    level := 0, levelneib := 0, sinkid := -1, potmin := false
    active := true, itype := .real, iorig := 0 }

/-- Unit periodic box. -/
def boxC1 : DomainBox :=
  { boxmin := fun _ => 0, boxmax := fun _ => 1, boxsize := fun _ => 1 }

/-- A real particle near the upper z face. -/
def originC1 : SphParticle 3 :=
  { baseParticle with r := fun k => if k.val = 2 then 9/10 else 0 }

/-- The ghost that `SearchGhostParticles` creates for it through the upper
periodic z face: shifted by `-boxsize[2]`, kind `z_rhs_periodic`. -/
def ghostC1 : SphParticle 3 :=
  { originC1 with
    r := fun k => if k.val = 2 then -1/10 else 0
    active := false, itype := .z_rhs_periodic, iorig := 0 }

/-- Particle array: one real particle, one z-periodic ghost. -/
def dataC1 : ℕ → SphParticle 3 :=
  fun i => if i = 0 then originC1 else if i = 1 then ghostC1 else baseParticle

/-- A star with `v0 = 1`, `a0 = 2` and a step starting at `nlast = 0`. -/
def starC2 : StarParticle 1 :=
  { r := fun _ => 0, v := fun _ => 0, a := fun _ => 0
    r0 := fun _ => 0, v0 := fun _ => 1, a0 := fun _ => 2
    m := 1, h := 1, gpot := 0, nlast := 0, nstep := 2, active := false }

/-- `ComputeH` instance with an empty neighbour list (`rho` stays 0) and
the fractional power abstracted to the constant 1. -/
def hparamsC3 : HParams :=
  { ndim := 3, mPart := 1, h_fac := 1, h_converge := 1/100, hmax := 10
    small := 1/10^20, hlo0 := 0, neib := []
    w0s2 := fun _ => 0, powInvNdim := fun _ => 1 }

/-- Entry state of the loop for `hparamsC3` (`h = 1`, `iteration = 0`). -/
def hstateC3 : HIterState := ⟨1, 0, 10, 0, 0⟩

/-- `ComputeH` instance in one dimension with a single close neighbour of
mass 8, so that `rho = 8/h`. -/
def hparamsC4 : HParams :=
  { ndim := 1, mPart := 1, h_fac := 1, h_converge := 1/100, hmax := 100
    small := 1/10^20, hlo0 := 0, neib := [(8, 0)]
    w0s2 := fun _ => 1, powInvNdim := fun _ => 1 }

/-- A bisection-phase state for `hparamsC4`: `h = 4`, bracket `(0, 8)`,
`iteration = 40`. -/
def hstateC4 : HIterState := ⟨4, 0, 8, 1, 40⟩

/-- Pair-force member data: fixed-alpha viscosity with `alpha_visc = 2`,
`beta_visc = 2`, conductivity off, unit kernel gradient, square root
abstracted by the identity (exact on the inputs used). -/
def pairParamsC6 : PairParams :=
  { avisc := .mon97, acond := .noac, alpha_visc := 2, beta_visc := 2
    small := 0, w1 := fun _ => 1, wgrav := fun _ => 0, wpot := fun _ => 0
    pressure := fun _ _ => 0, sqrtFn := fun x => x }

/-- Same member data with `alpha_visc = 1`. -/
def pairParamsC6unit : PairParams := { pairParamsC6 with alpha_visc := 1 }

/-- Left particle of an approaching pair in one dimension. -/
def partiC6 : SphParticle 1 :=
  { r := fun _ => 0, v := fun _ => 1, a := fun _ => 0, agrav := fun _ => 0
    m := 1, h := 1, invh := 1, hfactor := 1, rho := 1, invrho := 1
    invomega := 1, zeta := 0, chi := 0, u := 0, dudt := 0, div_v := 0
    gpot := 0, sound := 1, pfactor := 0, alpha := 0
    level := 0, levelneib := 0, sinkid := -1, potmin := false
    active := true, itype := .real, iorig := 0 }

/-- Right particle of the pair (at `r = 1`, at rest). -/
def neibjC6 : SphParticle 1 :=
  { partiC6 with r := fun _ => 1, v := fun _ => 0 }

/-- Unit separation vector of the pair. -/
def drauxC6 : Vec 1 := fun _ => 1

/-- Particle state entering `ComputePostHydroQuantities`: `rho = 1`,
`invrho = invomega = 1`, accumulated `div_v = 1`, and the stored pressure
factor `pfactor = P/(rho² Omega) = 2` for the constant pressure `P = 2`. -/
def partC5 : SphParticle 1 :=
  { partiC6 with pfactor := 2, div_v := 1, sound := 0, v := fun _ => 0 }

/-- Ghost bookkeeping state with the ghost capacity exactly full:
`Nsph = 1`, `Nsphmax = 2`, hence `Nghostmax = Nsphmax - Nsph = 1`, and
`Nghost = 1` ghost already created. -/
def stateC8 : SphState :=
  { sphdata := fun _ => baseParticle, Nsph := 1, Nghost := 1
    NPeriodicGhost := 0, Nghostmax := 1, Nsphmax := 2, Ntot := 2 }

/-- Ghost bookkeeping state with room to spare, for exercising the MPI
ghost-receive paths. -/
def stateC10 : SphState :=
  { sphdata := fun _ => baseParticle, Nsph := 0, Nghost := 0
    NPeriodicGhost := 0, Nghostmax := 5, Nsphmax := 5, Ntot := 0 }


/-- The state produced by creating one ghost on `stateC10` (defaulting to
`stateC10` on the impossible raise branch). -/
def createResultC10 : SphState :=
  match createGhostParticle stateC10 0 0 5 0 .x_lhs_periodic with
  | .ok st => st
  | .raise => stateC10

/-- The state produced by receiving one MPI ghost on `stateC10`. -/
def mpiSearchResultC10 : SphState :=
  match mpiSearchGhostParticles stateC10 1 (fun _ => baseParticle) with
  | .ok st => st
  | .raise => stateC10

/-- A bisection-phase state (`iteration = 40`) for the empty-neighbour
parameters `hparamsC3`, where `rho` stays `0`. -/
def hstateC4w : HIterState := ⟨4, 0, 8, 1, 40⟩

/-- The separation the hydro-grav routine computes for the pair
`(partiC6, neibjC6)` under `pairParamsC6unit`. -/
def drmagC6w : ℚ :=
  pairParamsC6unit.sqrtFn
    (dotQ (fun k => neibjC6.r k - partiC6.r k)
      (fun k => neibjC6.r k - partiC6.r k) + pairParamsC6unit.small)

/-- The corresponding unit separation vector. -/
def drauxC6w : Vec 1 := fun k => (neibjC6.r k - partiC6.r k) * (1 / drmagC6w)

lemma foldl_update_active_false (base N : ℕ) (data : ℕ → SphParticle 3)
    (f : (ℕ → SphParticle 3) → ℕ → SphParticle 3)
    (hf : ∀ d j, (f d j).active = false) (j : ℕ) (hj : j < N) :
    (((List.range N).foldl (fun d j => Function.update d (base + j) (f d j))
      data) (base + j)).active = false := by
  induction N generalizing data with
  | zero => omega
  | succ N ih =>
    rw [List.range_succ, List.foldl_append, List.foldl_cons, List.foldl_nil]
    rcases Nat.lt_or_ge j N with hlt | hge
    · rw [Function.update_noteq (by omega)]
      exact ih data hlt
    · have hjN : j = N := by omega
      subst hjN
      rw [Function.update_same]
      exact hf _ _

/-- C7. Each neighbour pass of `ComputeSphHydroForces` changes the two
hydrodynamic accelerations antisymmetrically in momentum: in every
coordinate `m_i·Δa_i + m_j·Δa_j = 0` exactly, so a pair interaction
leaves `Σ m·a` unchanged. -/
theorem hydro_pair_momentum_conservation {d : ℕ} (P : PairParams)
    (drmag : ℚ) (draux : Vec d) (parti neibj : SphParticle d) (k : Fin d) :
    parti.m * ((computeSphHydroForcesPair P drmag draux parti neibj).1.a k
      - parti.a k) +
    neibj.m * ((computeSphHydroForcesPair P drmag draux parti neibj).2.a k
      - neibj.a k) = 0 := by
  simp only [computeSphHydroForcesPair]
  ring

/-- C2. `NbodyLeapfrogDKD::AdvanceParticles` drifts the position only to
first order: with `r0 = 0`, `v0 = 1`, `a0 = 2`, `dt = 1` the code yields
`r = 1`, not the `r0 + v0·dt + ½·a0·dt² = 2` of the claim (and of the
routine's own banner comment); the velocity kick `v = v0 + a0·dt` does
hold. -/
theorem advanceParticlesDKD_drift_omits_accel_term :
    (advanceParticlesDKD 1 1 starC2).r 0 = 1 ∧
    (advanceParticlesDKD 1 1 starC2).v 0 = 3 ∧
    (advanceParticlesDKD 1 1 starC2).r 0 ≠
      starC2.r0 0 + starC2.v0 0 * 1 + (1/2) * starC2.a0 0 * 1 ^ 2 := by
  refine ⟨?_, ?_, ?_⟩ <;> norm_num [advanceParticlesDKD, starC2]

/-- C1. After the refresh pass `CopySphDataToGhosts`, a `z_rhs_periodic`
ghost sits at its origin's *unshifted* position (the shift dispatch only
handles the x/y periodic kinds): the refreshed position is `9/10`, while
the claim `r_ghost − shift = r_origin` would require
`r_origin + shift = 9/10 − boxsize = −1/10`. -/
theorem ghost_refresh_keeps_unshifted_z_position :
    ((copySphDataToGhosts boxC1 1 1 dataC1) 1).r 2 = 9/10 ∧
    ((copySphDataToGhosts boxC1 1 1 dataC1) 1).itype =
      GhostKind.z_rhs_periodic ∧
    originC1.r 2 = 9/10 ∧
    originC1.r 2 + (-(boxC1.boxsize 2)) ≠
      ((copySphDataToGhosts boxC1 1 1 dataC1) 1).r 2 := by
  have h : ((copySphDataToGhosts boxC1 1 1 dataC1) 1).r 2 = 9/10 := rfl
  refine ⟨h, rfl, rfl, ?_⟩
  rw [h]
  norm_num [originC1, baseParticle, boxC1]

/-- C8. With the ghost capacity exactly full (`Nghost = Nghostmax`),
`CreateGhostParticle` does not raise (its check is the strict
`Nghost > Nghostmax`) and stores the new ghost at index
`Nsph + Nghost = Nsphmax`, one past the preallocated range. -/
theorem createGhost_capacity_off_by_one :
    storedKind (createGhostParticle stateC8 0 0 5 0 .x_lhs_periodic)
      (stateC8.Nsph + stateC8.Nghost) = some .x_lhs_periodic ∧
    stateC8.Nsph + stateC8.Nghost = stateC8.Nsphmax ∧
    stateC8.Nghostmax < stateC8.Nghost + 1 := by
  refine ⟨?_, ?_, ?_⟩ <;>
    norm_num [storedKind, createGhostParticle, stateC8, baseParticle,
      Function.update_apply]

/-- C5 counterexample. For a consistent state with pressure `P = 2`,
`rho = 1`, `Omega = 1` (so the stored factor is `pfactor = 2`) and
accumulated `div_v = 1`, the code decreases `du/dt` by `2` — but the
claim's `P·div_v·pfactor/rho` is `4`. -/
theorem postHydro_pdv_claim_counterexample :
    (computePostHydroQuantities (fun _ _ => 2) partC5).div_v = 1 ∧
    (computePostHydroQuantities (fun _ _ => 2) partC5).dudt = -2 ∧
    partC5.pfactor = 2 * partC5.invrho * partC5.invrho * partC5.invomega ∧
    (computePostHydroQuantities (fun _ _ => 2) partC5).dudt ≠
      partC5.dudt - 2 * (computePostHydroQuantities (fun _ _ => 2) partC5).div_v
        * partC5.pfactor / partC5.rho := by
  refine ⟨?_, ?_, ?_, ?_⟩ <;>
    norm_num [computePostHydroQuantities, partC5, partiC6]

/-- C5 (amended). `ComputePostHydroQuantities` normalises
`div_v ← div_v·invrho` and then decreases `du/dt` by
`P·div_v/(rho·Omega)`, i.e. by `rho · pfactor · div_v` in terms of the
stored pressure factor `pfactor = P/(rho²·Omega)` — not by
`P·div_v·pfactor/rho`. -/
theorem postHydro_pdv_formula {d : ℕ} (press : ℚ → ℚ → ℚ)
    (p : SphParticle d) (hir : p.invrho * p.rho = 1)
    (hpf : p.pfactor = press p.rho p.u * p.invrho * p.invrho * p.invomega) :
    (computePostHydroQuantities press p).div_v = p.div_v * p.invrho ∧
    (computePostHydroQuantities press p).dudt =
      p.dudt - p.rho * p.pfactor * (p.div_v * p.invrho) := by
  constructor
  · rfl
  · simp only [computePostHydroQuantities]
    rw [hpf]
    linear_combination
      (press p.rho p.u * p.div_v * p.invrho * p.invrho * p.invomega) * hir

/-- Witness for `postHydro_pdv_formula` at the concrete state `partC5`. -/
theorem postHydro_pdv_formula_w :
    (computePostHydroQuantities (fun _ _ => 2) partC5).div_v =
      partC5.div_v * partC5.invrho ∧
    (computePostHydroQuantities (fun _ _ => 2) partC5).dudt =
      partC5.dudt - partC5.rho * partC5.pfactor *
        (partC5.div_v * partC5.invrho) :=
  postHydro_pdv_formula (fun _ _ => 2) partC5
    (by simp [partC5, partiC6]) (by simp [partC5, partiC6])

/-- C10. Every write of a ghost into the particle array — creation of a
periodic/mirror ghost, the per-step refresh of those ghosts, and
receipt/update of MPI ghosts — stores the record with `active = false`. -/
theorem ghost_writes_inactive :
    (∀ (st : SphState) (i : ℕ) (k : Fin 3) (rk vk : ℚ) (t : GhostKind)
       (st' : SphState), createGhostParticle st i k rk vk t = .ok st' →
       (st'.sphdata (st.Nsph + st.Nghost)).active = false) ∧
    (∀ (box : DomainBox) (Nsph Nper : ℕ) (data : ℕ → SphParticle 3) (j : ℕ),
       j < Nper →
       ((copySphDataToGhosts box Nsph Nper data) (Nsph + j)).active = false) ∧
    (∀ (st : SphState) (N : ℕ) (g : ℕ → SphParticle 3) (st' : SphState)
       (j : ℕ), mpiSearchGhostParticles st N g = .ok st' → j < N →
       (st'.sphdata (st.Nsph + st.NPeriodicGhost + j)).active = false) ∧
    (∀ (st : SphState) (N : ℕ) (g : ℕ → SphParticle 3) (j : ℕ), j < N →
       ((mpiCopySphDataToGhosts st N g).sphdata
         (st.Nsph + st.NPeriodicGhost + j)).active = false) := by
  refine ⟨?_, ?_, ?_, ?_⟩
  · intro st i k rk vk t st' hok
    simp only [createGhostParticle] at hok
    split_ifs at hok
    all_goals cases hok
    simp [Function.update_same]
  · intro box Nsph Nper data j hj
    exact foldl_update_active_false Nsph Nper data _ (fun _ _ => rfl) j hj
  · intro st N g st' j hok hj
    simp only [mpiSearchGhostParticles] at hok
    split_ifs at hok
    all_goals cases hok
    exact foldl_update_active_false (st.Nsph + st.NPeriodicGhost) N
      st.sphdata _ (fun _ _ => rfl) j hj
  · intro st N g j hj
    exact foldl_update_active_false (st.Nsph + st.NPeriodicGhost) N
      st.sphdata _ (fun _ _ => rfl) j hj

/-- Witness for `ghost_writes_inactive`, instantiating all four writes on
concrete states. -/
theorem ghost_writes_inactive_w :
    (createResultC10.sphdata (stateC10.Nsph + stateC10.Nghost)).active
      = false ∧
    ((copySphDataToGhosts boxC1 1 1 dataC1) (1 + 0)).active = false ∧
    (mpiSearchResultC10.sphdata
      (stateC10.Nsph + stateC10.NPeriodicGhost + 0)).active = false ∧
    ((mpiCopySphDataToGhosts stateC10 1 (fun _ => baseParticle)).sphdata
      (stateC10.Nsph + stateC10.NPeriodicGhost + 0)).active = false :=
  ⟨ghost_writes_inactive.1 stateC10 0 0 5 0 .x_lhs_periodic
      createResultC10 rfl,
   ghost_writes_inactive.2.1 boxC1 1 1 dataC1 0 (by decide),
   ghost_writes_inactive.2.2.1 stateC10 1 (fun _ => baseParticle)
      mpiSearchResultC10 0 rfl (by decide),
   ghost_writes_inactive.2.2.2 stateC10 1 (fun _ => baseParticle) 0
      (by decide)⟩

/-- C4 counterexample. In the bisection phase with `rho·h^d = 8` above
`(h_fac)^d·m = 1`, the step keeps the lower bound at `0` and makes
`h = 4` the new *upper* bound, with midpoint `2` — the claim's "h becomes
the new lower bound" would give the bracket `(4, 8)` and midpoint `6`. -/
theorem computeH_bisection_claim_counterexample :
    hparamsC4.h_fac ^ hparamsC4.ndim * hparamsC4.mPart <
      rhoAt hparamsC4 hstateC4.h * hstateC4.h ^ hparamsC4.ndim ∧
    hStepFn hparamsC4 hstateC4 = .next ⟨2, 0, 4, 1/2, 41⟩ ∧
    (0 : ℚ) ≠ hstateC4.h := by
  refine ⟨?_, ?_, ?_⟩ <;>
    norm_num [hStepFn, convergedAt, hNextAt, hBoundsNext, bisectUpper,
      invrhoNext, hIdeal, hPost, rhoAt, hparamsC4, hstateC4, iterationMax,
      abs_sub_lt_iff]

/-- C4 (amended). In the bisection phase (`iteration_max < iteration
< 5·iteration_max`, not converged), the test
`rho < small_number ∨ rho·h^d > (h_fac)^d·m` signifies that the current
`h` is too *large*, making `h` the new *upper* bound (in the opposite
case the new lower bound), after which `h` is set to the midpoint of the
updated bracket; a continuing step carries exactly these values. -/
theorem computeH_bisection_updates (P : HParams) (s : HIterState)
    (hnc : ¬ convergedAt P s) (h30 : iterationMax < s.iteration + 1)
    (h150 : s.iteration + 1 < 5 * iterationMax) :
    (bisectUpper P s →
      hBoundsNext P s = (s.hlo, s.h) ∧ hNextAt P s = (s.hlo + s.h) / 2) ∧
    (¬ bisectUpper P s →
      hBoundsNext P s = (s.h, s.hhi) ∧ hNextAt P s = (s.h + s.hhi) / 2) ∧
    (∀ s', hStepFn P s = .next s' →
      s'.h = hNextAt P s ∧ s'.hlo = (hBoundsNext P s).1 ∧
      s'.hhi = (hBoundsNext P s).2 ∧ s'.iteration = s.iteration + 1) := by
  refine ⟨?_, ?_, ?_⟩
  · intro hb
    rw [hBoundsNext, if_neg (by omega), if_pos hb, hNextAt,
      if_neg (by omega), hBoundsNext, if_neg (by omega), if_pos hb]
    exact ⟨rfl, rfl⟩
  · intro hb
    rw [hBoundsNext, if_neg (by omega), if_neg hb, hNextAt,
      if_neg (by omega), hBoundsNext, if_neg (by omega), if_neg hb]
    exact ⟨rfl, rfl⟩
  · intro s' hs
    simp only [hStepFn] at hs
    rw [if_neg hnc, if_neg (by omega)] at hs
    split_ifs at hs
    cases hs
    exact ⟨rfl, rfl, rfl, rfl⟩

/-- Witness for `computeH_bisection_updates` on the zero-density state
`hstateC4w` (classified "too large" through the `rho < small_number`
disjunct). -/
theorem computeH_bisection_updates_w :
    ((bisectUpper hparamsC3 hstateC4w →
      hBoundsNext hparamsC3 hstateC4w = (hstateC4w.hlo, hstateC4w.h) ∧
      hNextAt hparamsC3 hstateC4w = (hstateC4w.hlo + hstateC4w.h) / 2) ∧
    (¬ bisectUpper hparamsC3 hstateC4w →
      hBoundsNext hparamsC3 hstateC4w = (hstateC4w.h, hstateC4w.hhi) ∧
      hNextAt hparamsC3 hstateC4w = (hstateC4w.h + hstateC4w.hhi) / 2) ∧
    (∀ s', hStepFn hparamsC3 hstateC4w = .next s' →
      s'.h = hNextAt hparamsC3 hstateC4w ∧
      s'.hlo = (hBoundsNext hparamsC3 hstateC4w).1 ∧
      s'.hhi = (hBoundsNext hparamsC3 hstateC4w).2 ∧
      s'.iteration = hstateC4w.iteration + 1)) :=
  computeH_bisection_updates hparamsC3 hstateC4w
    (by simp [convergedAt, rhoAt, hparamsC3, hstateC4w])
    (by decide) (by decide)

lemma hStepFn_fatal_iff (P : HParams) (s : HIterState) :
    hStepFn P s = .exit .fatal ↔
      (¬ convergedAt P s ∧ 5 * iterationMax ≤ s.iteration + 1) := by
  simp only [hStepFn]
  split_ifs with h1 h2 h3 h4 <;> simp_all [hPost]

lemma hStepFn_next_bound (P : HParams) (s s' : HIterState)
    (h : hStepFn P s = .next s') :
    s'.iteration = s.iteration + 1 ∧ s.iteration + 1 < 5 * iterationMax := by
  simp only [hStepFn] at h
  split_ifs at h with h1 h2 h3 h4
  all_goals cases h
  exact ⟨rfl, not_le.mp h2⟩

lemma hStepFn_exit_reach (P : HParams) {s s' : HIterState} {e : HExit}
    (hx : hStepFn P s = .exit e) (hr : ReachH P s s') : s' = s := by
  induction hr with
  | refl => rfl
  | step h1 h2 ih =>
    subst ih
    rw [hx] at h2
    cases h2

lemma reach_extend (P : HParams) {s s₂ s' : HIterState}
    (hst : hStepFn P s = .next s₂) (hr : ReachH P s₂ s') : ReachH P s s' := by
  induction hr with
  | refl => exact ReachH.step (ReachH.refl s) hst
  | step h1 h2 ih => exact ReachH.step ih h2

lemma reach_case (P : HParams) {s s₂ s' : HIterState}
    (hst : hStepFn P s = .next s₂) (hr : ReachH P s s') :
    s' = s ∨ ReachH P s₂ s' := by
  induction hr with
  | refl => exact Or.inl rfl
  | step h1 h2 ih =>
    rcases ih with he | hr2
    · subst he
      rw [hst] at h2
      cases h2
      exact Or.inr (ReachH.refl _)
    · exact Or.inr (ReachH.step hr2 h2)

lemma computeHLoop_fatal_iff (P : HParams) (fuel : ℕ) (s : HIterState)
    (hfuel : fuel + s.iteration = 5 * iterationMax)
    (hb : s.iteration + 1 ≤ 5 * iterationMax) :
    computeHLoop P fuel s = .fatal ↔
      ∃ s', ReachH P s s' ∧ ¬ convergedAt P s' ∧
        s'.iteration + 1 = 5 * iterationMax := by
  induction fuel generalizing s with
  | zero => exfalso; omega
  | succ fuel ih =>
    cases hstep : hStepFn P s with
    | exit e =>
      have hl : computeHLoop P (fuel + 1) s = e := by
        simp [computeHLoop, hstep]
      rw [hl]
      constructor
      · intro he
        subst he
        obtain ⟨hnc, hge⟩ := (hStepFn_fatal_iff P s).mp hstep
        exact ⟨s, ReachH.refl s, hnc, by omega⟩
      · rintro ⟨s', hr, hnc, hit⟩
        have hss := hStepFn_exit_reach P hstep hr
        subst hss
        have hft : hStepFn P _ = .exit .fatal :=
          (hStepFn_fatal_iff P _).mpr ⟨hnc, by omega⟩
        rw [hstep] at hft
        cases hft
        rfl
    | next s₂ =>
      have hl : computeHLoop P (fuel + 1) s = computeHLoop P fuel s₂ := by
        simp [computeHLoop, hstep]
      obtain ⟨hit2, hlt⟩ := hStepFn_next_bound P s s₂ hstep
      rw [hl, ih s₂ (by omega) (by omega)]
      constructor
      · rintro ⟨s', hr, hc1, hc2⟩
        exact ⟨s', reach_extend P hstep hr, hc1, hc2⟩
      · rintro ⟨s', hr, hc1, hc2⟩
        rcases reach_case P hstep hr with he | hr2
        · exfalso
          subst he
          omega
        · exact ⟨s', hr2, hc1, hc2⟩

/-- C3. `ComputeH`'s error protocol: a step that is not converged, not at
the iteration cap, and whose new trial `h` exceeds `hmax` makes the
routine `return 0` (the distinguished "neighbour list insufficient"
answer, a constructor different from the fatal one); and the fatal
"Problem with convergence of h-rho iteration" exception is raised exactly
when a reachable pass is the `5·iteration_max = 150`-th one and is still
unconverged. -/
theorem computeH_return_protocol (P : HParams) (fuel : ℕ) (s : HIterState)
    (h0 invrho0 : ℚ)
    (hfuel : fuel + s.iteration = 5 * iterationMax)
    (hb : s.iteration + 1 ≤ 5 * iterationMax) :
    (¬ convergedAt P s → s.iteration + 1 < 5 * iterationMax →
       P.hmax < hNextAt P s → computeHLoop P fuel s = .insufficient) ∧
    (computeHLoop P fuel s = .fatal ↔
       ∃ s', ReachH P s s' ∧ ¬ convergedAt P s' ∧
         s'.iteration + 1 = 5 * iterationMax) ∧
    (computeH P h0 invrho0 = .fatal ↔
       ∃ s', ReachH P ⟨h0, P.hlo0, P.hmax, invrho0, 0⟩ s' ∧
         ¬ convergedAt P s' ∧ s'.iteration + 1 = 5 * iterationMax) := by
  refine ⟨?_, computeHLoop_fatal_iff P fuel s hfuel hb, ?_⟩
  · intro hnc hlt hmx
    have hstep : hStepFn P s = .exit .insufficient := by
      simp only [hStepFn]
      rw [if_neg hnc, if_neg (by omega), if_pos hmx]
    obtain ⟨fuel', rfl⟩ : ∃ fuel', fuel = fuel' + 1 := by
      refine ⟨fuel - 1, ?_⟩
      omega
    simp [computeHLoop, hstep]
  · simp only [computeH]
    exact computeHLoop_fatal_iff P (5 * iterationMax) _ (by simp)
      (by norm_num [iterationMax])

/-- Witness for `computeH_return_protocol` at the state `hstateC3` with
full fuel. -/
theorem computeH_return_protocol_w :
    ((¬ convergedAt hparamsC3 hstateC3 →
       hstateC3.iteration + 1 < 5 * iterationMax →
       hparamsC3.hmax < hNextAt hparamsC3 hstateC3 →
       computeHLoop hparamsC3 150 hstateC3 = .insufficient) ∧
    (computeHLoop hparamsC3 150 hstateC3 = .fatal ↔
       ∃ s', ReachH hparamsC3 hstateC3 s' ∧ ¬ convergedAt hparamsC3 s' ∧
         s'.iteration + 1 = 5 * iterationMax) ∧
    (computeH hparamsC3 1 0 = .fatal ↔
       ∃ s', ReachH hparamsC3 ⟨1, hparamsC3.hlo0, hparamsC3.hmax, 0, 0⟩ s' ∧
         ¬ convergedAt hparamsC3 s' ∧
         s'.iteration + 1 = 5 * iterationMax)) :=
  computeH_return_protocol hparamsC3 150 hstateC3 1 0 (by decide) (by decide)

/-- C6 counterexample. For the same approaching pair state (identical
particles, separation 1, `v_ij·r̂ = -1`), with `alpha_visc = 2` and
`beta_visc = 2`, `ComputeSphHydroForces` deposits `du/dt = -6` on
particle `i` (signal speed `c_i+c_j-β·α·(v·r̂) = 6`) while
`ComputeSphHydroGravForces` deposits `du/dt = -4` (signal speed
`c_i+c_j-β·(v·r̂) = 4`, without the `α` factor): the dissipation terms of
the two routines are not the same function of the pair state. -/
theorem hydrograv_vsignal_claim_counterexample :
    (computeSphHydroForcesPair pairParamsC6 1 drauxC6 partiC6 neibjC6).1.dudt
      = -6 ∧
    (computeSphHydroGravForcesPair pairParamsC6 partiC6 neibjC6).1.dudt
      = -4 ∧
    pairParamsC6.sqrtFn
      (dotQ (fun k => neibjC6.r k - partiC6.r k)
        (fun k => neibjC6.r k - partiC6.r k) + pairParamsC6.small) = 1 ∧
    (∀ k, drauxC6 k = (neibjC6.r k - partiC6.r k) * (1 / 1)) ∧
    ((-6 : ℚ) ≠ -4) := by
  refine ⟨?_, ?_, ?_, ?_, ?_⟩ <;>
    norm_num [computeSphHydroForcesPair, computeSphHydroGravForcesPair,
      dotQ, Fin.sum_univ_one, Fin.forall_fin_one, pairParamsC6, partiC6,
      neibjC6, drauxC6]

/-- C6 (amended). The pure-hydro routine uses the signal speed
`c_i + c_j - beta_visc·alpha_visc·(v_ij·r̂)`, the hydro-grav routine uses
`c_i + c_j - beta_visc·(v_ij·r̂)` without the `alpha_visc` factor; when
`alpha_visc = 1` (and only the geometry is fed consistently) the
dissipation deposits of the two routines coincide: equal `du/dt` updates
on both particles and equal hydrodynamic acceleration increments. -/
theorem hydrograv_dissipation_alpha_one {d : ℕ} (P : PairParams)
    (parti neibj : SphParticle d) (drmag : ℚ) (draux : Vec d)
    (hav : P.avisc = .mon97) (ha1 : P.alpha_visc = 1)
    (hdr : drmag = P.sqrtFn
      (dotQ (fun k => neibj.r k - parti.r k)
        (fun k => neibj.r k - parti.r k) + P.small))
    (hdx : draux = fun k => (neibj.r k - parti.r k) * (1 / drmag)) :
    ((computeSphHydroForcesPair P drmag draux parti neibj).1.dudt =
      (computeSphHydroGravForcesPair P parti neibj).1.dudt) ∧
    ((computeSphHydroForcesPair P drmag draux parti neibj).2.dudt =
      (computeSphHydroGravForcesPair P parti neibj).2.dudt) ∧
    (∀ k, (computeSphHydroForcesPair P drmag draux parti neibj).1.a k
        - parti.a k =
      (computeSphHydroGravForcesPair P parti neibj).1.a k - parti.a k) ∧
    (∀ k, (computeSphHydroForcesPair P drmag draux parti neibj).2.a k
        - neibj.a k =
      (computeSphHydroGravForcesPair P parti neibj).2.a k - neibj.a k) := by
  subst hdr
  subst hdx
  refine ⟨?_, ?_, fun k => ?_, fun k => ?_⟩ <;>
    · simp only [computeSphHydroForcesPair, computeSphHydroGravForcesPair,
        hav, ha1, eq_self_iff_true, if_true]
      cases hac : P.acond <;>
        · simp only [hac]
          split_ifs <;> ring

/-- Witness for `hydrograv_dissipation_alpha_one` on the concrete pair
with `alpha_visc = 1`. -/
theorem hydrograv_dissipation_alpha_one_w :
    ((computeSphHydroForcesPair pairParamsC6unit drmagC6w drauxC6w
        partiC6 neibjC6).1.dudt =
      (computeSphHydroGravForcesPair pairParamsC6unit partiC6
        neibjC6).1.dudt) ∧
    ((computeSphHydroForcesPair pairParamsC6unit drmagC6w drauxC6w
        partiC6 neibjC6).2.dudt =
      (computeSphHydroGravForcesPair pairParamsC6unit partiC6
        neibjC6).2.dudt) ∧
    (∀ k, (computeSphHydroForcesPair pairParamsC6unit drmagC6w drauxC6w
        partiC6 neibjC6).1.a k - partiC6.a k =
      (computeSphHydroGravForcesPair pairParamsC6unit partiC6
        neibjC6).1.a k - partiC6.a k) ∧
    (∀ k, (computeSphHydroForcesPair pairParamsC6unit drmagC6w drauxC6w
        partiC6 neibjC6).2.a k - neibjC6.a k =
      (computeSphHydroGravForcesPair pairParamsC6unit partiC6
        neibjC6).2.a k - neibjC6.a k) :=
  hydrograv_dissipation_alpha_one pairParamsC6unit partiC6 neibjC6
    drmagC6w drauxC6w rfl rfl rfl rfl

lemma two_n_mod (n a : ℕ) (hn : 0 < n) (h2 : a < 2 * n) :
    a % n = a ∨ (n ≤ a ∧ a % n = a - n) := by
  rcases Nat.lt_or_ge a n with h | h
  · exact Or.inl (Nat.mod_eq_of_lt h)
  · refine Or.inr ⟨h, ?_⟩
    rw [Nat.mod_eq_sub_mod h, Nat.mod_eq_of_lt (by omega)]

lemma three_n_mod (n a : ℕ) (hn : 0 < n) (h3 : a < 3 * n) :
    a % n = a ∨ (n ≤ a ∧ a % n = a - n) ∨
      (2 * n ≤ a ∧ a % n = a - 2 * n) := by
  rcases Nat.lt_or_ge a n with h | h
  · exact Or.inl (Nat.mod_eq_of_lt h)
  · rcases Nat.lt_or_ge a (2 * n) with h2 | h2
    · refine Or.inr (Or.inl ⟨h, ?_⟩)
      rw [Nat.mod_eq_sub_mod h, Nat.mod_eq_of_lt (by omega)]
    · refine Or.inr (Or.inr ⟨h2, ?_⟩)
      rw [Nat.mod_eq_sub_mod h, Nat.mod_eq_sub_mod (by omega),
        Nat.mod_eq_of_lt (by omega)]
      omega

lemma mod_eval_small (n x u : ℕ) (hn : 0 < n) (hu : u < n)
    (hx : x = u ∨ x = u + n ∨ x = u + 2 * n) : x % n = u := by
  rcases hx with hx | hx | hx <;> subst hx
  · exact Nat.mod_eq_of_lt hu
  · rw [Nat.add_mod_right]
    exact Nat.mod_eq_of_lt hu
  · rw [show u + 2 * n = u + n + n by ring, Nat.add_mod_right,
      Nat.add_mod_right]
    exact Nat.mod_eq_of_lt hu

lemma league_mod_core (n iturn t a : ℕ) (hn : 0 < n) (hi : iturn < n)
    (ht : t < n) (ha : a + iturn = t + n) : (a % n + iturn) % n = t := by
  rcases two_n_mod n a hn (by omega) with hm | ⟨hle, hm⟩ <;> rw [hm]
  · rw [show a + iturn = t + n from ha, Nat.add_mod_right,
      Nat.mod_eq_of_lt ht]
  · rw [show a - n + iturn = t from by omega, Nat.mod_eq_of_lt ht]

lemma league_mod_inj (n iturn p q : ℕ) (hn : 0 < n) (hp1 : 1 ≤ p)
    (hpn : p ≤ n) (hq1 : 1 ≤ q) (hqn : q ≤ n) (hi : iturn < n)
    (h : (p + iturn) % n = (q + iturn) % n) : p = q := by
  rcases two_n_mod n (p + iturn) hn (by omega) with hp | ⟨hpl, hp⟩ <;>
    rcases two_n_mod n (q + iturn) hn (by omega) with hq | ⟨hql, hq⟩ <;>
      (rw [hp, hq] at h; omega)

lemma two_mul_mod_inj (n a b : ℕ) (hodd : n % 2 = 1) (ha : a < n)
    (hb : b < n) (h : (2 * a) % n = (2 * b) % n) : a = b := by
  have hn : 0 < n := by omega
  rcases two_n_mod n (2 * a) hn (by omega) with h1 | ⟨hl1, h1⟩ <;>
    rcases two_n_mod n (2 * b) hn (by omega) with h2 | ⟨hl2, h2⟩ <;>
      (rw [h1, h2] at h; omega)

lemma meets_mod (n a t u : ℕ) (hn : 0 < n) (ha : a < n) (ht : t < n)
    (hu : u < n) (h : (2 * a) % n = (t + u) % n) :
    (2 * a + n - t) % n = u := by
  rcases two_n_mod n (2 * a) hn (by omega) with h1 | ⟨hl1, h1⟩ <;>
    rcases two_n_mod n (t + u) hn (by omega) with h2 | ⟨hl2, h2⟩ <;>
      (rw [h1, h2] at h; exact mod_eval_small n _ u hn hu (by omega))

lemma meets_mod_rev (n a t u : ℕ) (hn : 0 < n) (ha : a < n) (ht : t < n)
    (hu : u < n) (h : (2 * a + n - t) % n = u) :
    (2 * a) % n = (t + u) % n := by
  rcases three_n_mod n (2 * a + n - t) hn (by omega) with h1 | ⟨hl1, h1⟩ |
    ⟨hl1, h1⟩ <;> rw [h1] at h
  · rw [show t + u = 2 * a + n from by omega, Nat.add_mod_right]
  · rw [show t + u = 2 * a from by omega]
  · rw [show 2 * a = (t + u) + n from by omega, Nat.add_mod_right]

lemma pairsTurn_le (Nmpi iturn : ℕ) (h2 : 2 ≤ Nmpi) (i : ℕ) :
    pairsTurn Nmpi iturn i ≤ Nmpi - 1 := by
  unfold pairsTurn
  split_ifs
  · exact le_refl _
  · exact le_of_lt (Nat.mod_lt _ (by omega))

lemma pairsTurn_lt_of_pos (Nmpi iturn : ℕ) (h2 : 2 ≤ Nmpi) (i : ℕ)
    (hi : 1 ≤ i) : pairsTurn Nmpi iturn i < Nmpi - 1 := by
  unfold pairsTurn
  rw [if_neg (by omega)]
  exact Nat.mod_lt _ (by omega)

lemma pairsTurn_leaguePos (Nmpi iturn : ℕ) (h2 : 2 ≤ Nmpi)
    (hit : iturn < Nmpi - 1) (t : ℕ) (ht : t ≤ Nmpi - 1) :
    pairsTurn Nmpi iturn (leaguePos Nmpi iturn t) = t ∧
      leaguePos Nmpi iturn t ≤ Nmpi - 1 := by
  unfold leaguePos
  by_cases h1 : t = Nmpi - 1
  · rw [if_pos h1]
    exact ⟨h1.symm, by omega⟩
  · rw [if_neg h1]
    have htn : t < Nmpi - 1 := by omega
    have hml := league_mod_core (Nmpi - 1) iturn t (t + (Nmpi - 1) - iturn)
      (by omega) hit htn (by omega)
    by_cases hr : (t + (Nmpi - 1) - iturn) % (Nmpi - 1) = 0
    · rw [if_pos hr]
      rw [hr, Nat.zero_add, Nat.mod_eq_of_lt hit] at hml
      constructor
      · unfold pairsTurn
        rw [if_neg (by omega), Nat.add_mod_left, Nat.mod_eq_of_lt hit]
        exact hml
      · exact le_refl _
    · rw [if_neg hr]
      constructor
      · unfold pairsTurn
        rw [if_neg hr]
        exact hml
      · have : (t + (Nmpi - 1) - iturn) % (Nmpi - 1) < Nmpi - 1 :=
          Nat.mod_lt _ (by omega)
        omega

lemma pairsTurn_inj (Nmpi iturn : ℕ) (h2 : 2 ≤ Nmpi)
    (hit : iturn < Nmpi - 1) (p q : ℕ) (hp : p ≤ Nmpi - 1)
    (hq : q ≤ Nmpi - 1)
    (h : pairsTurn Nmpi iturn p = pairsTurn Nmpi iturn q) : p = q := by
  unfold pairsTurn at h
  by_cases hp0 : p = 0 <;> by_cases hq0 : q = 0
  · omega
  · rw [if_pos hp0, if_neg hq0] at h
    have : (q + iturn) % (Nmpi - 1) < Nmpi - 1 := Nat.mod_lt _ (by omega)
    omega
  · rw [if_neg hp0, if_pos hq0] at h
    have : (p + iturn) % (Nmpi - 1) < Nmpi - 1 := Nat.mod_lt _ (by omega)
    omega
  · rw [if_neg hp0, if_neg hq0] at h
    exact league_mod_inj (Nmpi - 1) iturn p q (by omega) (by omega) hp
      (by omega) hq hit h

lemma leaguePos_pairsTurn (Nmpi iturn : ℕ) (h2 : 2 ≤ Nmpi)
    (hit : iturn < Nmpi - 1) (q : ℕ) (hq : q ≤ Nmpi - 1) :
    leaguePos Nmpi iturn (pairsTurn Nmpi iturn q) = q := by
  have h1 := pairsTurn_leaguePos Nmpi iturn h2 hit (pairsTurn Nmpi iturn q)
    (pairsTurn_le Nmpi iturn h2 q)
  exact pairsTurn_inj Nmpi iturn h2 hit _ q h1.2 hq h1.1

lemma leagueWrite_apply (Nmpi iturn : ℕ) (c : ℕ → ℕ) (istep t : ℕ) :
    leagueWrite Nmpi iturn c istep t =
      if t = pairsTurn Nmpi iturn (Nmpi - 1 - istep) then
        pairsTurn Nmpi iturn istep
      else if t = pairsTurn Nmpi iturn istep then
        pairsTurn Nmpi iturn (Nmpi - 1 - istep)
      else c t := by
  simp only [leagueWrite, Function.update_apply]

lemma leagueFold_eval (Nmpi iturn : ℕ) (h2 : 2 ≤ Nmpi)
    (hit : iturn < Nmpi - 1) (m : ℕ) (hm : m ≤ Nmpi / 2) (c0 : ℕ → ℕ)
    (t : ℕ) (ht : t ≤ Nmpi - 1) :
    ((List.range m).foldl (leagueWrite Nmpi iturn) c0) t =
      if leaguePos Nmpi iturn t < m ∨
          Nmpi - 1 - leaguePos Nmpi iturn t < m then
        pairsTurn Nmpi iturn (Nmpi - 1 - leaguePos Nmpi iturn t)
      else c0 t := by
  induction m with
  | zero => simp
  | succ m ih =>
    have hm' : m ≤ Nmpi / 2 := by omega
    have hmn : m < Nmpi - 1 := by omega
    rw [List.range_succ, List.foldl_append, List.foldl_cons, List.foldl_nil,
      leagueWrite_apply]
    by_cases ht2 : t = pairsTurn Nmpi iturn (Nmpi - 1 - m)
    · rw [if_pos ht2, ht2,
        leaguePos_pairsTurn Nmpi iturn h2 hit (Nmpi - 1 - m) (by omega)]
      rw [if_pos (by omega), show Nmpi - 1 - (Nmpi - 1 - m) = m from by
        omega]
    · rw [if_neg ht2]
      by_cases ht1 : t = pairsTurn Nmpi iturn m
      · rw [if_pos ht1, ht1,
          leaguePos_pairsTurn Nmpi iturn h2 hit m (by omega)]
        rw [if_pos (by omega)]
      · rw [if_neg ht1, ih hm']
        have hpt := pairsTurn_leaguePos Nmpi iturn h2 hit t ht
        have hne1 : leaguePos Nmpi iturn t ≠ m := by
          intro hc
          rw [← hc] at ht1
          exact ht1 hpt.1.symm
        have hne2 : leaguePos Nmpi iturn t ≠ Nmpi - 1 - m := by
          intro hc
          rw [← hc] at ht2
          exact ht2 hpt.1.symm
        by_cases hcond : leaguePos Nmpi iturn t < m ∨
            Nmpi - 1 - leaguePos Nmpi iturn t < m
        · rw [if_pos hcond, if_pos (by omega)]
        · rw [if_neg hcond, if_neg (by
            rcases hpt with ⟨hpt1, hpt2⟩
            omega)]

lemma leagueCalendar_eval (Nmpi iturn : ℕ) (h2 : 2 ≤ Nmpi)
    (he : Nmpi % 2 = 0) (hit : iturn < Nmpi - 1) (t : ℕ)
    (ht : t ≤ Nmpi - 1) :
    leagueCalendar Nmpi iturn t =
      pairsTurn Nmpi iturn (Nmpi - 1 - leaguePos Nmpi iturn t) := by
  unfold leagueCalendar
  rw [leagueFold_eval Nmpi iturn h2 hit (Nmpi / 2) (le_refl _) _ t ht]
  have hpt := pairsTurn_leaguePos Nmpi iturn h2 hit t ht
  rw [if_pos (by omega)]

lemma league_self_meet (n t u : ℕ) (hn : 0 < n) (ht : t < n) (hu : u < n)
    (h : (2 * t) % n = (t + u) % n) : t = u := by
  rcases two_n_mod n (2 * t) hn (by omega) with h1 | ⟨hl1, h1⟩ <;>
    rcases two_n_mod n (t + u) hn (by omega) with h2 | ⟨hl2, h2⟩ <;>
      (rw [h1, h2] at h; omega)

lemma leagueCalendar_formula (Nmpi iturn : ℕ) (h2 : 2 ≤ Nmpi)
    (he : Nmpi % 2 = 0) (hit : iturn < Nmpi - 1) :
    leagueCalendar Nmpi iturn (Nmpi - 1) = iturn ∧
    (iturn < Nmpi - 1 → leagueCalendar Nmpi iturn iturn = Nmpi - 1) ∧
    (∀ t, t < Nmpi - 1 → t ≠ iturn →
      leagueCalendar Nmpi iturn t =
        (2 * iturn + (Nmpi - 1) - t) % (Nmpi - 1)) := by
  refine ⟨?_, ?_, ?_⟩
  · rw [leagueCalendar_eval Nmpi iturn h2 he hit (Nmpi - 1) (le_refl _)]
    simp only [leaguePos]
    rw [if_pos trivial, Nat.sub_zero]
    simp only [pairsTurn]
    rw [if_neg (by omega), Nat.add_mod_left, Nat.mod_eq_of_lt hit]
  · intro hlt
    rw [leagueCalendar_eval Nmpi iturn h2 he hit iturn (by omega)]
    simp only [leaguePos]
    rw [if_neg (by omega),
      show iturn + (Nmpi - 1) - iturn = Nmpi - 1 from by omega,
      Nat.mod_self, if_pos rfl, Nat.sub_self]
    simp only [pairsTurn]
    rw [if_pos trivial]
  · intro t htn hti
    rw [leagueCalendar_eval Nmpi iturn h2 he hit t (by omega)]
    have hml := league_mod_core (Nmpi - 1) iturn t (t + (Nmpi - 1) - iturn)
      (by omega) hit htn (by omega)
    have hrlt : (t + (Nmpi - 1) - iturn) % (Nmpi - 1) < Nmpi - 1 :=
      Nat.mod_lt _ (by omega)
    have hr0 : (t + (Nmpi - 1) - iturn) % (Nmpi - 1) ≠ 0 := by
      intro hc
      rw [hc, Nat.zero_add, Nat.mod_eq_of_lt hit] at hml
      exact hti hml.symm
    simp only [leaguePos]
    rw [if_neg (by omega), if_neg hr0]
    simp only [pairsTurn]
    rw [if_neg (by omega)]
    rcases two_n_mod (Nmpi - 1) (t + (Nmpi - 1) - iturn) (by omega)
      (by omega) with hA | ⟨hle, hB⟩
    · have htlt : t < iturn := by omega
      rw [hA, show Nmpi - 1 - (t + (Nmpi - 1) - iturn) + iturn =
        2 * iturn - t from by omega,
        show 2 * iturn + (Nmpi - 1) - t = (2 * iturn - t) + (Nmpi - 1)
          from by omega, Nat.add_mod_right]
    · rw [hB, show Nmpi - 1 - (t + (Nmpi - 1) - iturn - (Nmpi - 1)) + iturn
        = 2 * iturn + (Nmpi - 1) - t from by omega]

/-- C9. The tournament calendar of `CreateLeagueCalendar` for an even
number of workers `Nmpi ≥ 2`: over the `Nturns = Nmpi - 1` turns, every
worker is paired in each turn with exactly one peer — a valid worker id
different from itself, and the pairing is mutual — and every pair of
distinct workers is scheduled in exactly one turn, so no worker ever has
two concurrent exchanges. -/
theorem leagueCalendar_round_robin (Nmpi : ℕ) (he : Nmpi % 2 = 0)
    (h2 : 2 ≤ Nmpi) :
    (∀ iturn, iturn < NturnsLeague Nmpi → ∀ t, t < Nmpi →
      leagueCalendar Nmpi iturn t < Nmpi ∧
      leagueCalendar Nmpi iturn t ≠ t ∧
      leagueCalendar Nmpi iturn (leagueCalendar Nmpi iturn t) = t) ∧
    (∀ t u, t < Nmpi → u < Nmpi → t ≠ u →
      ∃! iturn, iturn < NturnsLeague Nmpi ∧
        leagueCalendar Nmpi iturn t = u) := by
  simp only [NturnsLeague]
  constructor
  · intro iturn hit t ht
    have ht' : t ≤ Nmpi - 1 := by omega
    have hpt := pairsTurn_leaguePos Nmpi iturn h2 hit t ht'
    have hcal := leagueCalendar_eval Nmpi iturn h2 he hit t ht'
    refine ⟨?_, ?_, ?_⟩
    · rw [hcal]
      have := pairsTurn_le Nmpi iturn h2 (Nmpi - 1 - leaguePos Nmpi iturn t)
      omega
    · rw [hcal]
      intro hEq
      have := pairsTurn_inj Nmpi iturn h2 hit
        (Nmpi - 1 - leaguePos Nmpi iturn t) (leaguePos Nmpi iturn t)
        (by omega) hpt.2 (hEq.trans hpt.1.symm)
      omega
    · rw [hcal, leagueCalendar_eval Nmpi iturn h2 he hit _
        (pairsTurn_le Nmpi iturn h2 _),
        leaguePos_pairsTurn Nmpi iturn h2 hit _ (by omega),
        show Nmpi - 1 - (Nmpi - 1 - leaguePos Nmpi iturn t) =
          leaguePos Nmpi iturn t from by omega]
      exact hpt.1
  · intro t u ht hu hne
    by_cases htn : t = Nmpi - 1
    · -- team Nmpi-1 meets u exactly in turn u
      have hun : u < Nmpi - 1 := by omega
      refine ⟨u, ⟨hun, ?_⟩, ?_⟩
      · rw [htn]
        exact (leagueCalendar_formula Nmpi u h2 he hun).1
      · rintro y ⟨hy, hcy⟩
        rw [htn] at hcy
        rw [(leagueCalendar_formula Nmpi y h2 he hy).1] at hcy
        exact hcy
    · by_cases hun : u = Nmpi - 1
      · -- t meets team Nmpi-1 exactly in turn t
        have htn' : t < Nmpi - 1 := by omega
        refine ⟨t, ⟨htn', ?_⟩, ?_⟩
        · rw [hun]
          exact (leagueCalendar_formula Nmpi t h2 he htn').2.1 htn'
        · rintro y ⟨hy, hcy⟩
          by_cases hyt : t = y
          · exact hyt.symm
          · exfalso
            rw [(leagueCalendar_formula Nmpi y h2 he hy).2.2 t (by omega)
              hyt, hun] at hcy
            have : (2 * y + (Nmpi - 1) - t) % (Nmpi - 1) < Nmpi - 1 :=
              Nat.mod_lt _ (by omega)
            omega
      · -- both ordinary teams: unique turn from 2*iturn ≡ t+u (mod Nmpi-1)
        have htn' : t < Nmpi - 1 := by omega
        have hun' : u < Nmpi - 1 := by omega
        have hodd : (Nmpi - 1) % 2 = 1 := by omega
        have h2c : 2 * (Nmpi / 2) = Nmpi := by omega
        have hcong : (2 * ((Nmpi / 2 * (t + u)) % (Nmpi - 1))) % (Nmpi - 1)
            = (t + u) % (Nmpi - 1) := by
          have hstep : (2 * ((Nmpi / 2 * (t + u)) % (Nmpi - 1)))
              % (Nmpi - 1) = (2 * (Nmpi / 2 * (t + u))) % (Nmpi - 1) :=
            Nat.ModEq.mul_left 2 (Nat.mod_modEq _ (Nmpi - 1))
          have harg : 2 * (Nmpi / 2 * (t + u)) =
              (t + u) + (t + u) * (Nmpi - 1) := by
            calc 2 * (Nmpi / 2 * (t + u)) = (2 * (Nmpi / 2)) * (t + u) :=
                  by ring
              _ = Nmpi * (t + u) := by rw [h2c]
              _ = (t + u) * (Nmpi - 1 + 1) := by
                  rw [show Nmpi - 1 + 1 = Nmpi from by omega]
                  ring
              _ = (t + u) + (t + u) * (Nmpi - 1) := by ring
          rw [hstep, harg, Nat.add_mul_mod_self_right]
        have hi0 : (Nmpi / 2 * (t + u)) % (Nmpi - 1) < Nmpi - 1 :=
          Nat.mod_lt _ (by omega)
        have hti0 : t ≠ (Nmpi / 2 * (t + u)) % (Nmpi - 1) := by
          intro hc
          rw [← hc] at hcong
          exact hne (league_self_meet (Nmpi - 1) t u (by omega) htn' hun'
            hcong)
        refine ⟨(Nmpi / 2 * (t + u)) % (Nmpi - 1), ⟨hi0, ?_⟩, ?_⟩
        · rw [(leagueCalendar_formula Nmpi _ h2 he hi0).2.2 t htn'
            hti0]
          exact meets_mod (Nmpi - 1) _ t u (by omega) hi0 htn' hun' hcong
        · rintro y ⟨hy, hcy⟩
          have hyt : t ≠ y := by
            intro hc
            rw [← hc] at hcy
            rw [(leagueCalendar_formula Nmpi t h2 he htn').2.1 htn']
              at hcy
            omega
          rw [(leagueCalendar_formula Nmpi y h2 he hy).2.2 t htn'
            (fun hc => hyt hc)] at hcy
          have hrev := meets_mod_rev (Nmpi - 1) y t u (by omega) hy htn'
            hun' hcy
          exact two_mul_mod_inj (Nmpi - 1) y _ hodd hy hi0
            (hrev.trans hcong.symm)

/-- Witness for `leagueCalendar_round_robin` at `Nmpi = 4`. -/
theorem leagueCalendar_round_robin_w :
    ((∀ iturn, iturn < NturnsLeague 4 → ∀ t, t < 4 →
      leagueCalendar 4 iturn t < 4 ∧
      leagueCalendar 4 iturn t ≠ t ∧
      leagueCalendar 4 iturn (leagueCalendar 4 iturn t) = t) ∧
    (∀ t u, t < 4 → u < 4 → t ≠ u →
      ∃! iturn, iturn < NturnsLeague 4 ∧
        leagueCalendar 4 iturn t = u)) :=
  leagueCalendar_round_robin 4 (by decide) (by decide)
